import Mathlib

/-!
# Certificate Waiter — verification of the specification against the source

Shallow embedding of `src/narwhal/primary/src/certificate_waiter.rs`.

Modelling conventions:
* `PublicKey` (authority identity) is an abstract type with decidable equality;
  we use `Nat`. `Round` and `Epoch` are `Nat` (the Rust `u64` values never
  overflow in the waiter's arithmetic: the only operation is `saturating_sub`,
  which on `Nat` is plain subtraction).
* `BTreeMap<PublicKey, Round>` is modelled as an association list
  `List (PublicKey × Round)` with `List.lookup` as `get`; `insert` removes any
  previous binding and conses the new one; `retain` is `List.filter`.
* Fallible store reads (`DagResult`) are modelled with `Except Unit`.
* The tokio machinery (select loop, `FuturesUnordered`, spawned tasks) is
  modelled as pure transition functions plus, for the event loop, a step
  relation; `fetch_certificates_task.len()` (sentinel included) is carried as
  a `Nat` field.
-/

namespace CertificateWaiter

abbrev PublicKey := Nat
abbrev Round := Nat
abbrev Epoch := Nat

/-- The part of a certificate header the waiter reads. -/
structure Header where
  author : PublicKey
  round : Round
  epoch : Epoch
  deriving DecidableEq, Repr

/-- `Certificate` is opaque to the waiter beyond its header fields. -/
structure Certificate where
  header : Header
  deriving DecidableEq, Repr

/-- An epoch-tagged set of authorities (network addresses are irrelevant to
the claims and omitted). -/
structure Committee where
  epoch : Epoch
  authorities : List PublicKey
  deriving DecidableEq, Repr

/-- `const MAX_CERTIFICATES_TO_FETCH: usize = 1000;` -/
def MAX_CERTIFICATES_TO_FETCH : Nat := 1000

/-- Read-only stores visible to the waiter.  `consensus_store` is present
exactly when internal consensus is used; each read returns
`Option Round` (`none` ⇒ authority absent, interpreted as round 0 by
`last_committed_round`) or fails (`Except.error`). -/
structure Stores where
  consensus_store : Option (PublicKey → Except Unit (Option Round))
  certificate_store : PublicKey → Except Unit (Option Round)

/-- `CertificateWaiter::last_committed_round`: consensus store when present,
else certificate store; a `None` read is round 0 (genesis). -/
def last_committed_round (s : Stores) (authority : PublicKey) : Except Unit Round :=
  match s.consensus_store with
  | some consensus_store => do
      pure ((← consensus_store authority).getD 0)
  | none => do
      pure ((← s.certificate_store authority).getD 0)

/-- `CertificateWaiter::all_committed_rounds`: one entry per authority of the
current committee (the Rust `for` loop inserting into a `BTreeMap`, modelled
as recursion over the authority list); fails if any single read fails
(the `?` operator). -/
def all_committed_rounds (s : Stores) (committee : Committee) :
    Except Unit (List (PublicKey × Round)) :=
  go committee.authorities
where go : List PublicKey → Except Unit (List (PublicKey × Round))
  | [] => .ok []
  | name :: rest => do
    let last ← last_committed_round s name
    let tail ← go rest
    pure ((name, last) :: tail)

/-- `CertificateWaiter::gc_round`: `latest_consensus_round.saturating_sub(gc_depth)`;
on `Nat` subtraction already saturates at 0. -/
def gcRound (latest_consensus_round : Nat) (gc_depth : Round) : Round :=
  latest_consensus_round - gc_depth

/-- Association-list `insert` with `BTreeMap` semantics: replaces any existing
binding of the key. -/
def mapInsert (m : List (PublicKey × Round)) (k : PublicKey) (v : Round) :
    List (PublicKey × Round) :=
  (k, v) :: m.filter (fun p => !(p.1 == k))

/-- The `FetchCertificatesRequest` wire type. -/
structure FetchCertificatesRequest where
  exclusive_lower_bounds : List (PublicKey × Round)
  max_items : Nat
  deriving DecidableEq, Repr

/-- The `FetchCertificatesResponse` wire type. -/
structure FetchCertificatesResponse where
  certificates : List Certificate
  deriving DecidableEq, Repr

/-- The mutable state of the waiter that `kick` and the missing-parent arm
touch: the committee and the target map. -/
structure WaiterState where
  committee : Committee
  targets : List (PublicKey × Round)
  deriving DecidableEq, Repr

/-- `CertificateWaiter::kick`, as a pure transition.  Returns the new waiter
state together with the `FetchCertificatesRequest` of the spawned fetch task
(`none` when no task is launched: store error, or no targets survive
retention).  The request is exactly what `run_fetch_task` builds from the
`committed_rounds` snapshot handed to the spawned task. -/
def kick (st : WaiterState) (stores : Stores)
    (latest_consensus_round : Nat) (gc_depth : Round) :
    WaiterState × Option FetchCertificatesRequest :=
  let gc_round := gcRound latest_consensus_round gc_depth
  match all_committed_rounds stores st.committee with
  | .error _ => (st, none)
  | .ok rounds =>
    let committed_rounds := rounds.map (fun p => (p.1, max p.2 gc_round))
    let targets := st.targets.filter (fun p =>
      ((committed_rounds.lookup p.1).getD gc_round) < p.2)
    if targets.isEmpty then
      ({ st with targets := targets }, none)
    else
      ({ st with targets := targets },
        some { exclusive_lower_bounds := committed_rounds,
               max_items := MAX_CERTIFICATES_TO_FETCH })

/-- The missing-parent arm of `CertificateWaiter::run` (the
`rx_certificate_waiter.recv()` branch), up to but not including the `kick()`
call.  `task_len` is `fetch_certificates_task.len()`.  Returns the updated
state and whether `kick` is invoked (the code invokes it exactly when a
target was installed and `task_len == 1`, i.e. only the sentinel future is
in the collection). -/
def handleMissingParent (st : WaiterState) (stores : Stores) (task_len : Nat)
    (certificate : Certificate) : WaiterState × Bool :=
  if certificate.header.epoch ≠ st.committee.epoch then
    (st, false)
  else if (st.targets.lookup certificate.header.author).any
      (fun r => certificate.header.round ≤ r) then
    (st, false)
  else
    match last_committed_round stores certificate.header.author with
    | .ok r =>
      if r ≥ certificate.header.round then
        (st, false)
      else
        ({ st with targets :=
            mapInsert st.targets certificate.header.author certificate.header.round },
          task_len == 1)
    | .error _ => (st, false)

/-- `types::error::DagError`, restricted to the variants the waiter produces. -/
inductive DagError
  | TooManyFetchedCertificatesReturned (got limit : Nat)
  | ClosedChannel
  deriving DecidableEq, Repr

/-- Message from CertificateWaiter to core on the loopback channel (the
`done` oneshot carries no data and is modelled by the `ack_ok` environment
flag of `process_certificates_helper`). -/
structure CertificateLoopbackMessage where
  certificates : List Certificate
  deriving DecidableEq, Repr

/-- `process_certificates_helper`.  `send_ok` models whether
`tx_certificates_loopback.send` succeeds, `ack_ok` whether the `done`
acknowledgement arrives.  The second component is the message actually
delivered on the loopback channel (`none` when nothing was sent). -/
def process_certificates_helper (response : FetchCertificatesResponse)
    (send_ok : Bool) (ack_ok : Bool) :
    Except DagError Unit × Option CertificateLoopbackMessage :=
  if response.certificates.length > MAX_CERTIFICATES_TO_FETCH then
    (.error (.TooManyFetchedCertificatesReturned
        response.certificates.length MAX_CERTIFICATES_TO_FETCH), none)
  else if ¬ send_ok then
    (.error .ClosedChannel, none)
  else if ¬ ack_ok then
    (.error .ClosedChannel, some { certificates := response.certificates })
  else
    (.ok (), some { certificates := response.certificates })

/-- `types::ReconfigureNotification`. -/
inductive ReconfigureNotification
  | NewEpoch (committee : Committee)
  | UpdateCommittee (committee : Committee)
  | Shutdown
  deriving DecidableEq, Repr

/-- Outcome of the reconfiguration arm of the event loop: keep looping with a
new state, return from `run` (dropping the in-flight task without awaiting
it), or panic (the `.expect("Committee channel dropped")`). -/
inductive ReconfigureOutcome
  | continued (st : WaiterState)
  | exited
  | panicked
  deriving DecidableEq, Repr

/-- The `rx_reconfigure.changed()` arm of `CertificateWaiter::run`.
`result` is the `watch::Receiver::changed` outcome (`.error` when the channel
is dropped).  The `Bool` records whether this arm invokes `kick` (the source
arm contains no `kick()` call, so it is `false` on every path). -/
def handleReconfigure (st : WaiterState)
    (result : Except Unit ReconfigureNotification) : ReconfigureOutcome × Bool :=
  match result with
  | .error _ => (.panicked, false)
  | .ok (.NewEpoch committee) =>
      (.continued { committee := committee, targets := [] }, false)
  | .ok (.UpdateCommittee committee) =>
      (.continued { committee := committee, targets := st.targets }, false)
  | .ok .Shutdown => (.exited, false)

/-! ## Event-loop transition system (for the at-most-one-task invariant)

`task_len` is `fetch_certificates_task.len()`: the sentinel `pending()`
future pushed at `spawn` plus the real fetch tasks currently in the
collection.  The sentinel never completes, so `fetch_certificates_task.next()`
yields (and removes an element) only when a real task finishes. -/

structure LoopState where
  committee : Committee
  targets : List (PublicKey × Round)
  task_len : Nat
  deriving DecidableEq, Repr

def LoopState.waiter (s : LoopState) : WaiterState :=
  { committee := s.committee, targets := s.targets }

/-- A `kick()` call at loop level: `task_len` grows by one exactly when a
fetch task is spawned. -/
def kickLoop (s : LoopState) (stores : Stores)
    (latest_consensus_round : Nat) (gc_depth : Round) : LoopState :=
  match kick s.waiter stores latest_consensus_round gc_depth with
  | (w, some _) =>
      { committee := w.committee, targets := w.targets, task_len := s.task_len + 1 }
  | (w, none) =>
      { committee := w.committee, targets := w.targets, task_len := s.task_len }

/-- The full missing-parent arm, `kick()` call included. -/
def stepMissingParent (s : LoopState) (stores : Stores)
    (latest_consensus_round : Nat) (gc_depth : Round)
    (certificate : Certificate) : LoopState :=
  match handleMissingParent s.waiter stores s.task_len certificate with
  | (w, true) =>
      kickLoop { s with committee := w.committee, targets := w.targets }
        stores latest_consensus_round gc_depth
  | (w, false) => { s with committee := w.committee, targets := w.targets }

/-- The `fetch_certificates_task.next()` arm: the completed task has been
removed from the collection; `kick()` runs when only the sentinel remains. -/
def stepTaskCompleted (s : LoopState) (stores : Stores)
    (latest_consensus_round : Nat) (gc_depth : Round) : LoopState :=
  if s.task_len - 1 = 1 then
    kickLoop { s with task_len := s.task_len - 1 } stores latest_consensus_round gc_depth
  else
    { s with task_len := s.task_len - 1 }

/-- One event handling of `CertificateWaiter::run` that keeps the loop
alive.  The `task_completed` step requires a real task to exist
(`2 ≤ task_len`), since the sentinel never completes.  `Shutdown` exits the
loop and the channel-drop panic aborts, so neither yields a successor. -/
inductive LoopStep : LoopState → LoopState → Prop
  | missing_parent (s : LoopState) (stores : Stores)
      (latest_consensus_round : Nat) (gc_depth : Round) (certificate : Certificate) :
      LoopStep s (stepMissingParent s stores latest_consensus_round gc_depth certificate)
  | task_completed (s : LoopState) (stores : Stores)
      (latest_consensus_round : Nat) (gc_depth : Round) (h : 2 ≤ s.task_len) :
      LoopStep s (stepTaskCompleted s stores latest_consensus_round gc_depth)
  | new_epoch (s : LoopState) (committee : Committee) :
      LoopStep s { s with committee := committee, targets := [] }
  | update_committee (s : LoopState) (committee : Committee) :
      LoopStep s { s with committee := committee }

/-- States reachable from `spawn`: empty targets and the sentinel alone in
the task collection (`fetch_certificates_task.push(pending().boxed())`). -/
inductive Reachable : LoopState → Prop
  | init (committee : Committee) :
      Reachable { committee := committee, targets := [], task_len := 1 }
  | step {s t : LoopState} : Reachable s → LoopStep s t → Reachable t

/-! ## Peer-probing loop (`fetch_certificates_helper`)

The loop is driven by `tokio::select!` between `fut.next()` (the unordered
collection of in-flight RPC calls) and a fresh 5-second interval timer per
peer iteration.  A trace of select outcomes drives the model: `response ok`
means some in-flight call completed (`Ok` or `Err`), `timeout` means the
interval elapsed first.  `inflight` counts the calls currently in `fut`;
each peer iteration pushes one call before selecting, a completed call
leaves the collection, a timeout leaves all calls in flight. -/

inductive ProbeEvent
  | response (ok : Bool)
  | timeout
  deriving DecidableEq, Repr

/-- One pass of the inner `for peer in peers.iter()` loop over `npeers`
remaining peers.  Returns (success, in-flight count, remaining trace):
success stops the whole helper at the first `Ok` response; `Err` responses
and elapsed intervals both advance to the next peer; an exhausted trace
blocks (no success).  -/
def probePass : Nat → Nat → List ProbeEvent → Bool × Nat × List ProbeEvent
  | 0, inflight, events => (false, inflight, events)
  | _ + 1, inflight, [] => (false, inflight + 1, [])
  | npeers + 1, inflight, event :: events =>
    match event with
    | .response true => (true, inflight, events)
    | .response false => probePass npeers inflight events
    | .timeout => probePass npeers (inflight + 1) events

/-- The outer `loop`: reshuffle (peer identities are irrelevant here, so a
pass is just its length) and recreate `fut`, resetting the in-flight
collection.  `fuel` bounds how many passes the model unrolls; the code's
loop is unbounded and ends only on first success or task cancellation,
which `fuel` running out represents. -/
def probeLoop : Nat → Nat → List ProbeEvent → Option Unit
  | 0, _, _ => none
  | fuel + 1, npeers, events =>
    match probePass npeers 0 events with
    | (true, _, _) => some ()
    | (false, _, events1) => probeLoop fuel npeers events1

/-! ## Peer-side fetch handler (spec-modelled, for the fetch-query test) -/

/-- Modelled from the spec: `PrimaryReceiverHandler::fetch_certificates` is
not among the sources (only its test `test_fetch_certificates_handler` is);
§6 of the spec defines it: "Peer returns certificates authored by each
listed authority with round strictly greater than the listed bound, up to
`max_items` across authorities." -/
def fetchCertificatesHandler (store : List Certificate)
    (request : FetchCertificatesRequest) : FetchCertificatesResponse :=
  { certificates :=
      ((request.exclusive_lower_bounds.map (fun b =>
        store.filter (fun c => c.header.author == b.1 && b.2 < c.header.round))).flatten).take
        request.max_items }

/-- A certificate of authority `a` at round `r` (epoch 0). -/
def mkCert (a : PublicKey) (r : Round) : Certificate :=
  { header := { author := a, round := r, epoch := 0 } }

/-- The store of `test_fetch_certificates_handler`: authority `i` holds
rounds `0 .. i+1` (A0: {0,1}, A1: {0,1,2}, A2: {0,1,2,3}, A3: {0,1,2,3,4}). -/
def testHandlerStore : List Certificate :=
  ((List.range 4).map (fun a => (List.range (a + 2)).map (fun r => mkCert a r))).flatten

/-! ## Spec-side definitions (written from the spec's words, for the
refinement comparison of C4) -/

/-- Written from the spec (§6 Stores): `consensus_store.read_last_committed_round`
when internal consensus is used, else `certificate_store.last_round_number`;
"Both return `None` ⇒ interpret as round 0 (genesis)". -/
def specLastCommitted (s : Stores) (a : PublicKey) : Except Unit Round :=
  match s.consensus_store with
  | some consensus_store =>
    match consensus_store a with
    | .ok r => .ok (r.getD 0)
    | .error e => .error e
  | none =>
    match s.certificate_store a with
    | .ok r => .ok (r.getD 0)
    | .error e => .error e

/-- Written from the spec (§4.3 step 2): "for each authority in the current
committee, `max(last_committed_round(a), gc_round)`", with
`gc_round = max(0, latest_consensus_round − gc_depth)` (§3), which on `Nat`
is truncated subtraction. -/
def specCommittedSnapshot (s : Stores) (committee : Committee)
    (latest_consensus_round : Nat) (gc_depth : Round) :
    Except Unit (List (PublicKey × Round)) :=
  go committee.authorities
where go : List PublicKey → Except Unit (List (PublicKey × Round))
  | [] => .ok []
  | a :: rest => do
    let last ← specLastCommitted s a
    let tail ← go rest
    pure ((a, max last (latest_consensus_round - gc_depth)) :: tail)

/-! ## Concrete example inputs used by witness theorems -/

/-- Stores with no consensus store, where every authority's certificate-store
read succeeds with round 1. -/
def exampleStores : Stores :=
  { consensus_store := none
  , certificate_store := fun _ => .ok (some 1) }

/-- Stores whose certificate-store reads always fail. -/
def exampleFailingStores : Stores :=
  { consensus_store := none
  , certificate_store := fun _ => .error () }

def exampleCommittee : Committee := { epoch := 0, authorities := [0, 1] }

def exampleState : WaiterState :=
  { committee := exampleCommittee, targets := [(0, 5)] }

/-- A state holding a target for authority 7, which is not in the committee. -/
def exampleStaleState : WaiterState :=
  { committee := { epoch := 0, authorities := [0] }, targets := [(7, 5)] }

def exampleCert : Certificate :=
  { header := { author := 0, round := 9, epoch := 0 } }

/-! ## Helper lemmas -/

theorem except_bind_ok {ε α β : Type} (a : α) (f : α → Except ε β) :
    (Except.ok a >>= f : Except ε β) = f a := rfl

theorem except_bind_error {ε α β : Type} (e : ε) (f : α → Except ε β) :
    ((Except.error e : Except ε α) >>= f) = Except.error e := rfl

theorem except_pure {ε α : Type} (a : α) : (pure a : Except ε α) = Except.ok a := rfl

theorem specLastCommitted_eq (s : Stores) (a : PublicKey) :
    specLastCommitted s a = last_committed_round s a := by
  obtain ⟨consensus_store, certificate_store⟩ := s
  cases consensus_store with
  | none =>
    unfold specLastCommitted last_committed_round
    cases hc : certificate_store a with
    | ok v => simp only [hc, except_bind_ok, except_pure]
    | error e => simp only [hc, except_bind_error]
  | some f =>
    unfold specLastCommitted last_committed_round
    cases hc : f a with
    | ok v => simp only [hc, except_bind_ok, except_pure]
    | error e => simp only [hc, except_bind_error]

/-- The spec's snapshot is the source's `all_committed_rounds` with `max`
against `gc_round` applied entrywise. -/
theorem specSnapshot_go_of_rounds (s : Stores) (latest_consensus_round : Nat)
    (gc_depth : Round) :
    ∀ (l : List PublicKey) (rounds : List (PublicKey × Round)),
      all_committed_rounds.go s l = .ok rounds →
      specCommittedSnapshot.go s latest_consensus_round gc_depth l =
        .ok (rounds.map (fun p =>
          (p.1, max p.2 (latest_consensus_round - gc_depth)))) := by
  intro l
  induction l with
  | nil =>
    intro rounds h
    cases (show Except.ok ([] : List (PublicKey × Round)) = Except.ok rounds from h)
    rfl
  | cons a l ih =>
    intro rounds h
    unfold all_committed_rounds.go at h
    unfold specCommittedSnapshot.go
    cases hl : last_committed_round s a with
    | error e =>
      simp only [hl, except_bind_error] at h
      exact Except.noConfusion h
    | ok v =>
      simp only [hl, except_bind_ok] at h
      simp only [specLastCommitted_eq s a, hl, except_bind_ok]
      cases hm : all_committed_rounds.go s l with
      | error e =>
        simp only [hm, except_bind_error] at h
        exact Except.noConfusion h
      | ok rs =>
        simp only [hm, except_bind_ok, except_pure] at h
        cases (show Except.ok ((a, v) :: rs) = Except.ok rounds from h)
        simp only [ih rs hm, except_bind_ok, except_pure]
        rfl

theorem lookup_filter_ne (m : List (PublicKey × Round)) (k b : PublicKey)
    (hne : b ≠ k) :
    (m.filter (fun p => !(p.1 == k))).lookup b = m.lookup b := by
  induction m with
  | nil => rfl
  | cons p m ih =>
    obtain ⟨pk, pv⟩ := p
    by_cases hpk : pk = k
    · subst hpk
      have hb : (b == pk) = false := by simp [hne]
      simp [List.filter_cons, List.lookup_cons, hb, ih]
    · by_cases hbp : b = pk
      · have hb : (b == pk) = true := by simp [hbp]
        simp [List.filter_cons, List.lookup_cons, hpk, hb]
      · have hb : (b == pk) = false := by simp [hbp]
        simp [List.filter_cons, List.lookup_cons, hpk, hb, ih]

theorem lookup_mapInsert (m : List (PublicKey × Round)) (k b : PublicKey) (v : Round) :
    (mapInsert m k v).lookup b = if b = k then some v else m.lookup b := by
  by_cases hbk : b = k
  · have hb : (b == k) = true := by simp [hbk]
    simp [mapInsert, List.lookup_cons, hb, hbk]
  · have hb : (b == k) = false := by simp [hbk]
    simp [mapInsert, List.lookup_cons, hb, hbk, lookup_filter_ne m k b hbk]

theorem lookup_map_max (rounds : List (PublicKey × Round)) (g : Round) (a : PublicKey) :
    (rounds.map (fun p => (p.1, max p.2 g))).lookup a
      = (rounds.lookup a).map (fun r => max r g) := by
  induction rounds with
  | nil => rfl
  | cons p rounds ih =>
    obtain ⟨pk, pv⟩ := p
    by_cases hap : a = pk
    · have hb : (a == pk) = true := by simp [hap]
      simp [List.lookup_cons, hb]
    · have hb : (a == pk) = false := by simp [hap]
      simp [List.lookup_cons, hb, ih]

/-- In the `.ok` branch of `kick`, the resulting state always carries the
retained target list, and the task is spawned iff that list is nonempty. -/
theorem kick_ok_unfold (st : WaiterState) (stores : Stores)
    (latest_consensus_round : Nat) (gc_depth : Round)
    (rounds : List (PublicKey × Round))
    (hro : all_committed_rounds stores st.committee = .ok rounds) :
    kick st stores latest_consensus_round gc_depth =
      (let gc_round := gcRound latest_consensus_round gc_depth
       let committed_rounds := rounds.map (fun p => (p.1, max p.2 gc_round))
       let targets := st.targets.filter (fun p =>
         ((committed_rounds.lookup p.1).getD gc_round) < p.2)
       if targets.isEmpty then ({ st with targets := targets }, none)
       else ({ st with targets := targets },
             some { exclusive_lower_bounds := committed_rounds,
                    max_items := MAX_CERTIFICATES_TO_FETCH })) := by
  unfold kick
  rw [hro]

/-- The missing-parent arm reports a kick only when
`fetch_certificates_task.len() == 1` (only the sentinel is present). -/
theorem handleMissingParent_kicked_len (st : WaiterState) (stores : Stores)
    (task_len : Nat) (certificate : Certificate)
    (h : (handleMissingParent st stores task_len certificate).2 = true) :
    task_len = 1 := by
  unfold handleMissingParent at h
  split at h
  · simp at h
  · split at h
    · simp at h
    · split at h
      · split at h
        · simp at h
        · simpa using h
      · simp at h

/-! ### Probing-loop lemmas -/

/-- A peer error advances to the next peer, consuming only that completion
event (in particular no interval event), with one call leaving the pool. -/
theorem probePass_err_step (npeers inflight : Nat) (events : List ProbeEvent) :
    probePass (npeers + 1) inflight (.response false :: events) =
      probePass npeers inflight events := rfl

/-- An elapsed interval advances to the next peer with every older call
still in flight (the pool grows by the call just issued). -/
theorem probePass_timeout_step (npeers inflight : Nat) (events : List ProbeEvent) :
    probePass (npeers + 1) inflight (.timeout :: events) =
      probePass npeers (inflight + 1) events := rfl

/-- A pass stops exactly at the first successful response: it consumes the
trace up to it, and the calls still outstanding at that moment are the
initial ones plus one per elapsed interval (none were cancelled). -/
theorem probePass_first_success :
    ∀ (k npeers inflight : Nat) (events : List ProbeEvent),
      k < npeers →
      events.get? k = some (.response true) →
      (∀ j, j < k → events.get? j ≠ some (.response true)) →
      probePass npeers inflight events =
        (true, inflight + (events.take k).countP (fun e => e == ProbeEvent.timeout),
          events.drop (k + 1)) := by
  intro k
  induction k with
  | zero =>
    intro npeers inflight events hk h0 _
    cases npeers with
    | zero => omega
    | succ n =>
      cases events with
      | nil => simp at h0
      | cons e rest =>
        simp at h0
        subst h0
        simp [probePass]
  | succ k ih =>
    intro npeers inflight events hk hk1 hmin
    cases npeers with
    | zero => omega
    | succ n =>
      cases events with
      | nil => simp at hk1
      | cons e rest =>
        have h0 : ¬ (e = ProbeEvent.response true) := by
          have := hmin 0 (Nat.succ_pos k)
          simpa using this
        have hrest : rest.get? k = some (.response true) := by simpa using hk1
        have hmin2 : ∀ j, j < k → rest.get? j ≠ some (.response true) := by
          intro j hj
          have := hmin (j + 1) (by omega)
          simpa using this
        have hkn : k < n := by omega
        cases e with
        | response ok =>
          cases ok with
          | true => exact absurd rfl h0
          | false =>
            rw [probePass_err_step, ih n inflight rest hkn hrest hmin2]
            simp [List.countP_cons]
        | timeout =>
          rw [probePass_timeout_step, ih n (inflight + 1) rest hkn hrest hmin2]
          simp [List.countP_cons]
          omega

/-- A pass succeeds iff a successful response occurs among the events it can
consume (one per peer). -/
theorem probePass_success_iff :
    ∀ (npeers inflight : Nat) (events : List ProbeEvent),
      (probePass npeers inflight events).1 = true ↔
        ∃ k, k < npeers ∧ events.get? k = some (.response true) := by
  intro npeers
  induction npeers with
  | zero =>
    intro inflight events
    simp [probePass]
  | succ n ih =>
    intro inflight events
    cases events with
    | nil =>
      simp [probePass]
    | cons e rest =>
      cases e with
      | response ok =>
        cases ok with
        | true => exact ⟨fun _ => ⟨0, Nat.succ_pos n, rfl⟩, fun _ => rfl⟩
        | false =>
          rw [probePass_err_step, ih]
          constructor
          · rintro ⟨k, hk, hget⟩
            exact ⟨k + 1, by omega, by simpa using hget⟩
          · rintro ⟨k, hk, hget⟩
            cases k with
            | zero => simp at hget
            | succ k => exact ⟨k, by omega, by simpa using hget⟩
      | timeout =>
        rw [probePass_timeout_step, ih]
        constructor
        · rintro ⟨k, hk, hget⟩
          exact ⟨k + 1, by omega, by simpa using hget⟩
        · rintro ⟨k, hk, hget⟩
          cases k with
          | zero => simp at hget
          | succ k => exact ⟨k, by omega, by simpa using hget⟩

/-- An unsuccessful pass consumes exactly one event per peer (as many as the
trace provides): the remaining trace is a drop. -/
theorem probePass_fail_remaining :
    ∀ (npeers inflight : Nat) (events : List ProbeEvent),
      (probePass npeers inflight events).1 = false →
      (probePass npeers inflight events).2.2 =
        events.drop (min npeers events.length) := by
  intro npeers
  induction npeers with
  | zero => intro inflight events _; simp [probePass]
  | succ n ih =>
    intro inflight events h
    cases events with
    | nil => simp [probePass]
    | cons e rest =>
      cases e with
      | response ok =>
        cases ok with
        | true => simp [probePass] at h
        | false =>
          rw [probePass_err_step] at h ⊢
          rw [ih inflight rest h]
          simp [Nat.succ_min_succ]
      | timeout =>
        rw [probePass_timeout_step] at h ⊢
        rw [ih (inflight + 1) rest h]
        simp [Nat.succ_min_succ]

/-- The outer loop reports success only when the trace contains a successful
response. -/
theorem probeLoop_sound :
    ∀ (fuel npeers : Nat) (events : List ProbeEvent),
      probeLoop fuel npeers events = some () →
      ∃ k, events.get? k = some (.response true) := by
  intro fuel
  induction fuel with
  | zero => intro npeers events h; exact Option.noConfusion h
  | succ fuel ih =>
    intro npeers events h
    unfold probeLoop at h
    split at h
    · next infl rem heq =>
      have h1 : (probePass npeers 0 events).1 = true := by rw [heq]
      obtain ⟨k, _, hk⟩ := (probePass_success_iff npeers 0 events).1 h1
      exact ⟨k, hk⟩
    · next infl rem heq =>
      obtain ⟨k, hk⟩ := ih npeers rem h
      have h1 : (probePass npeers 0 events).1 = false := by rw [heq]
      have h2 : rem = events.drop (min npeers events.length) := by
        have h3 := probePass_fail_remaining npeers 0 events h1
        rw [heq] at h3
        exact h3
      rw [h2, List.get?_drop] at hk
      exact ⟨_, hk⟩

/-- With at least one peer, the loop reaches any successful response in the
trace: it keeps reshuffling and retrying until the success. -/
theorem probeLoop_liveness :
    ∀ (fuel npeers : Nat) (events : List ProbeEvent),
      1 ≤ npeers →
      events.length ≤ fuel →
      (∃ k, events.get? k = some (.response true)) →
      probeLoop fuel npeers events = some () := by
  intro fuel
  induction fuel with
  | zero =>
    intro npeers events hn hlen hex
    obtain ⟨k, hk⟩ := hex
    have hnil : events = [] := List.eq_nil_of_length_eq_zero (Nat.le_zero.mp hlen)
    subst hnil
    simp at hk
  | succ fuel ih =>
    intro npeers events hn hlen hex
    unfold probeLoop
    split
    · rfl
    · next infl rem heq =>
      obtain ⟨k, hk⟩ := hex
      have hfail : (probePass npeers 0 events).1 = false := by rw [heq]
      have hnlt : ¬ k < npeers := by
        intro hlt
        have h1 : (probePass npeers 0 events).1 = true :=
          (probePass_success_iff npeers 0 events).2 ⟨k, hlt, hk⟩
        rw [hfail] at h1
        exact Bool.noConfusion h1
      have hklen : k < events.length := by
        by_contra hge
        rw [List.get?_eq_none.mpr (by omega)] at hk
        exact Option.noConfusion hk
      have hmin : min npeers events.length = npeers := by omega
      have h2 : rem = events.drop npeers := by
        have h3 := probePass_fail_remaining npeers 0 events hfail
        rw [heq] at h3
        rw [← hmin]
        exact h3
      apply ih npeers rem hn
      · rw [h2, List.length_drop]
        omega
      · refine ⟨k - npeers, ?_⟩
        rw [h2, List.get?_drop]
        rw [show npeers + (k - npeers) = k by omega]
        exact hk

/-! ## Claim theorems -/

/-- C1: whenever `kick` launches a fetch task, every entry `(a, r)` remaining
in the target map satisfies `r > committed_snapshot[a]` (the snapshot being
exactly the launched request's `exclusive_lower_bounds`, an authority absent
from it read at `gc_round`), because the retention step drops every target
with `committed_snapshot[a] ≥ target[a]` before spawning; and if the
retention step leaves the target map empty, no fetch task is launched. -/
theorem kick_targets_above_snapshot
    (st st' : WaiterState) (stores : Stores)
    (latest_consensus_round : Nat) (gc_depth : Round)
    (o : Option FetchCertificatesRequest)
    (hk : kick st stores latest_consensus_round gc_depth = (st', o)) :
    (∀ req, o = some req → ∀ a r, (a, r) ∈ st'.targets →
        (req.exclusive_lower_bounds.lookup a).getD
          (gcRound latest_consensus_round gc_depth) < r)
    ∧ (st'.targets = [] → o = none) := by
  unfold kick at hk
  split at hk
  · injection hk with h1 h2
    subst h1
    subst h2
    exact ⟨fun req hreq => Option.noConfusion hreq, fun _ => rfl⟩
  · simp only [] at hk
    split at hk
    · injection hk with h1 h2
      subst h1
      subst h2
      exact ⟨fun req hreq => Option.noConfusion hreq, fun _ => rfl⟩
    · next hne =>
      injection hk with h1 h2
      subst h1
      subst h2
      constructor
      · rintro req hreq a r hmem
        injection hreq with hreq
        subst hreq
        have h2 := (List.mem_filter.mp hmem).2
        simpa using h2
      · intro hnil
        dsimp only at hnil
        rw [hnil] at hne
        exact (hne rfl).elim

/-- C1 witness: a concrete launch where the surviving target `(0, 5)` is above
its snapshot bound. -/
theorem kick_targets_above_snapshot_witness :
    (([(0, 1), (1, 1)] : List (PublicKey × Round)).lookup 0).getD (gcRound 0 0) < 5 :=
  (kick_targets_above_snapshot exampleState
      { committee := exampleCommittee, targets := [(0, 5)] }
      exampleStores 0 0
      (some { exclusive_lower_bounds := [(0, 1), (1, 1)],
              max_items := MAX_CERTIFICATES_TO_FETCH })
      (by decide)).1
    _ rfl 0 5 (by decide)

/-- C10: in kick's target-retention step, a target whose authority is absent
from the committed-rounds snapshot is compared against `gc_round` rather than
round 0: it is kept iff `gc_round` is below its target round. -/
theorem kick_absent_authority_against_gc
    (st st' : WaiterState) (stores : Stores)
    (latest_consensus_round : Nat) (gc_depth : Round)
    (o : Option FetchCertificatesRequest)
    (rounds : List (PublicKey × Round)) (a : PublicKey) (r : Round)
    (hro : all_committed_rounds stores st.committee = .ok rounds)
    (ha : rounds.lookup a = none)
    (hk : kick st stores latest_consensus_round gc_depth = (st', o)) :
    ((a, r) ∈ st'.targets ↔
      (a, r) ∈ st.targets ∧ gcRound latest_consensus_round gc_depth < r) := by
  rw [kick_ok_unfold st stores latest_consensus_round gc_depth rounds hro] at hk
  simp only [] at hk
  split at hk <;>
  · injection hk with h1 h2
    subst h1
    simp [List.mem_filter, lookup_map_max, ha]

/-- C10 witness: authority 7 is outside the snapshot (committee is `[0]`);
its stale target round 5 is dropped because `gc_round = 6` has reached it. -/
theorem kick_absent_authority_against_gc_witness :
    ((7, 5) ∈ ([] : List (PublicKey × Round)) ↔
      (7, 5) ∈ [((7 : PublicKey), (5 : Round))] ∧ gcRound 10 4 < 5) :=
  kick_absent_authority_against_gc exampleStaleState
    { committee := { epoch := 0, authorities := [0] }, targets := [] }
    exampleStores 10 4 none [(0, 1)] 7 5 rfl rfl (by decide)

/-- A `kick()` call grows the task collection by at most one (by one exactly
when a fetch task is spawned). -/
theorem kickLoop_task_len (s : LoopState) (stores : Stores)
    (latest_consensus_round : Nat) (gc_depth : Round) :
    (kickLoop s stores latest_consensus_round gc_depth).task_len = s.task_len ∨
    (kickLoop s stores latest_consensus_round gc_depth).task_len = s.task_len + 1 := by
  unfold kickLoop
  split
  · right; rfl
  · left; rfl

/-- C2: at every point between event handlings at most one fetch task is in
flight: the task collection always contains the never-completing sentinel
(`1 ≤ task_len`) and at most one real task besides it (`task_len ≤ 2`);
tasks are pushed only from the missing-parent and task-completion arms
(`stepMissingParent`, `stepTaskCompleted`), and only when the collection
holds the sentinel alone. -/
theorem at_most_one_fetch_task (s : LoopState) (h : Reachable s) :
    1 ≤ s.task_len ∧ s.task_len ≤ 2 := by
  induction h with
  | init committee => exact ⟨Nat.le_refl 1, show (1 : Nat) ≤ 2 by decide⟩
  | step hr hstep ih =>
    rename_i s t
    cases hstep with
    | missing_parent stores latest_consensus_round gc_depth certificate =>
      rcases hmp : handleMissingParent s.waiter stores s.task_len certificate
        with ⟨w, kicked⟩
      cases kicked with
      | false =>
        have heq : stepMissingParent s stores latest_consensus_round gc_depth certificate
            = { s with committee := w.committee, targets := w.targets } := by
          unfold stepMissingParent
          rw [hmp]
        rw [heq]
        exact ih
      | true =>
        have hlen : s.task_len = 1 :=
          handleMissingParent_kicked_len s.waiter stores s.task_len certificate
            (by rw [hmp])
        have heq : stepMissingParent s stores latest_consensus_round gc_depth certificate
            = kickLoop { s with committee := w.committee, targets := w.targets }
                stores latest_consensus_round gc_depth := by
          unfold stepMissingParent
          rw [hmp]
        rw [heq]
        rcases kickLoop_task_len { s with committee := w.committee, targets := w.targets }
            stores latest_consensus_round gc_depth with hk | hk
        · rw [hk]
          show 1 ≤ s.task_len ∧ s.task_len ≤ 2
          omega
        · rw [hk]
          show 1 ≤ s.task_len + 1 ∧ s.task_len + 1 ≤ 2
          omega
    | task_completed stores latest_consensus_round gc_depth hge =>
      have h2 : s.task_len = 2 := Nat.le_antisymm ih.2 hge
      unfold stepTaskCompleted
      rw [h2]
      rw [if_pos rfl]
      rcases kickLoop_task_len { s with task_len := 2 - 1 }
          stores latest_consensus_round gc_depth with hk | hk
      · rw [hk]
        show 1 ≤ 2 - 1 ∧ 2 - 1 ≤ 2
        omega
      · rw [hk]
        show 1 ≤ 2 - 1 + 1 ∧ 2 - 1 + 1 ≤ 2
        omega
    | new_epoch committee => exact ih
    | update_committee committee => exact ih

/-- C2 witness: the spawn state (sentinel alone) is reachable and satisfies
the bounds. -/
theorem at_most_one_fetch_task_witness :
    1 ≤ ({ committee := exampleCommittee, targets := [], task_len := 1 } : LoopState).task_len
    ∧ ({ committee := exampleCommittee, targets := [], task_len := 1 } : LoopState).task_len ≤ 2 :=
  at_most_one_fetch_task
    { committee := exampleCommittee, targets := [], task_len := 1 }
    (Reachable.init exampleCommittee)

/-- C3: on a missing-parent event with `a = cert.author`, `r = cert.round`:
an epoch mismatch drops the event with state unchanged; an existing target
`target[a]` with `r ≤ target[a]` drops it; `committed_round(a) ≥ r` drops
it; otherwise `target[a]` is set to `r` (so a stored target round never
decreases on these events) and kick is invoked only when no fetch task is
in flight (`task_len = 1`, the sentinel alone). -/
theorem missing_parent_semantics :
    (∀ (st : WaiterState) (stores : Stores) (task_len : Nat)
        (certificate : Certificate),
      certificate.header.epoch ≠ st.committee.epoch →
      handleMissingParent st stores task_len certificate = (st, false))
    ∧ (∀ (st : WaiterState) (stores : Stores) (task_len : Nat)
        (certificate : Certificate) (r : Round),
      st.targets.lookup certificate.header.author = some r →
      certificate.header.round ≤ r →
      handleMissingParent st stores task_len certificate = (st, false))
    ∧ (∀ (st : WaiterState) (stores : Stores) (task_len : Nat)
        (certificate : Certificate) (r : Round),
      last_committed_round stores certificate.header.author = .ok r →
      r ≥ certificate.header.round →
      handleMissingParent st stores task_len certificate = (st, false))
    ∧ (∀ (st : WaiterState) (stores : Stores) (task_len : Nat)
        (certificate : Certificate) (r : Round),
      certificate.header.epoch = st.committee.epoch →
      (∀ r0, st.targets.lookup certificate.header.author = some r0 →
        r0 < certificate.header.round) →
      last_committed_round stores certificate.header.author = .ok r →
      r < certificate.header.round →
      handleMissingParent st stores task_len certificate =
        ({ st with targets :=
            mapInsert st.targets certificate.header.author certificate.header.round },
          task_len == 1))
    ∧ (∀ (st : WaiterState) (stores : Stores) (task_len : Nat)
        (certificate : Certificate) (b : PublicKey) (r0 : Round),
      st.targets.lookup b = some r0 →
      ∃ r1, (handleMissingParent st stores task_len certificate).1.targets.lookup b
          = some r1 ∧ r0 ≤ r1)
    ∧ (∀ (st : WaiterState) (stores : Stores) (task_len : Nat)
        (certificate : Certificate),
      (handleMissingParent st stores task_len certificate).2 = true →
      task_len = 1) := by
  refine ⟨?_, ?_, ?_, ?_, ?_, ?_⟩
  · intro st stores task_len certificate h
    unfold handleMissingParent
    split
    · rfl
    · next hcon => exact absurd h hcon
  · intro st stores task_len certificate r hl hle
    unfold handleMissingParent
    split
    · rfl
    · split
      · rfl
      · next hskip =>
        exfalso
        apply hskip
        rw [hl]
        simpa using hle
  · intro st stores task_len certificate r hok hge
    unfold handleMissingParent
    split
    · rfl
    · split
      · rfl
      · split
        · next r2 heq =>
          rw [hok] at heq
          injection heq with heq
          subst heq
          rw [if_pos hge]
        · rfl
  · intro st stores task_len certificate r hep htl hok hlt
    unfold handleMissingParent
    split
    · next hcon => exact absurd hep hcon
    · split
      · next hskip =>
        exfalso
        cases hl : st.targets.lookup certificate.header.author with
        | none => rw [hl] at hskip; simp at hskip
        | some r0 =>
          rw [hl] at hskip
          have := htl r0 hl
          simp at hskip
          exact absurd hskip (Nat.not_le.mpr this)
      · split
        · next r2 heq =>
          rw [hok] at heq
          injection heq with heq
          subst heq
          rw [if_neg (Nat.not_le.mpr hlt)]
        · next heq =>
          rw [hok] at heq
          exact Except.noConfusion heq
  · intro st stores task_len certificate b r0 hl
    unfold handleMissingParent
    split
    · exact ⟨r0, hl, le_refl r0⟩
    · split
      · exact ⟨r0, hl, le_refl r0⟩
      · next hskip =>
        split
        · split
          · exact ⟨r0, hl, le_refl r0⟩
          · next hr =>
            show ∃ r1, (mapInsert st.targets certificate.header.author
                certificate.header.round).lookup b = some r1 ∧ r0 ≤ r1
            rw [lookup_mapInsert]
            by_cases hb : b = certificate.header.author
            · rw [if_pos hb]
              refine ⟨certificate.header.round, rfl, ?_⟩
              rw [hb] at hl
              rw [hl] at hskip
              simp at hskip
              exact Nat.le_of_lt hskip
            · rw [if_neg hb]
              exact ⟨r0, hl, le_refl r0⟩
        · exact ⟨r0, hl, le_refl r0⟩
  · exact handleMissingParent_kicked_len

/-- C3 witness: concrete drops (stale epoch; round below existing target;
round already committed), a concrete install with kick (`task_len = 1`), the
target for authority 0 upgraded from 5 to 9, and kick only at
`task_len = 1`. -/
theorem missing_parent_semantics_witness :
    handleMissingParent exampleState exampleStores 1
        { header := { author := 0, round := 9, epoch := 1 } } = (exampleState, false)
    ∧ handleMissingParent exampleState exampleStores 1
        { header := { author := 0, round := 3, epoch := 0 } } = (exampleState, false)
    ∧ handleMissingParent exampleState exampleStores 1
        { header := { author := 0, round := 1, epoch := 0 } } = (exampleState, false)
    ∧ handleMissingParent exampleState exampleStores 1 exampleCert =
        ({ committee := exampleCommittee, targets := [(0, 9)] }, true)
    ∧ (∃ r1, (handleMissingParent exampleState exampleStores 2 exampleCert).1.targets.lookup 0
          = some r1 ∧ 5 ≤ r1)
    ∧ (1 : Nat) = 1 :=
  ⟨missing_parent_semantics.1 exampleState exampleStores 1
      { header := { author := 0, round := 9, epoch := 1 } } (by decide),
   missing_parent_semantics.2.1 exampleState exampleStores 1
      { header := { author := 0, round := 3, epoch := 0 } } 5 rfl (by decide),
   missing_parent_semantics.2.2.1 exampleState exampleStores 1
      { header := { author := 0, round := 1, epoch := 0 } } 1 rfl (by decide),
   missing_parent_semantics.2.2.2.1 exampleState exampleStores 1 exampleCert 1
      rfl (fun r0 h => by
        injection (show some (5 : Round) = some r0 from h) with h2
        subst h2
        decide) rfl (by decide),
   missing_parent_semantics.2.2.2.2.1 exampleState exampleStores 2 exampleCert 0 5 rfl,
   missing_parent_semantics.2.2.2.2.2 exampleState exampleStores 1 exampleCert
      (by decide)⟩

/-- C6: a store read failure is never fatal and leaves the target map
unchanged: during a missing-parent event only that event is dropped (state
unchanged, no kick), and during kick it aborts before the retention step
(no target dropped, added, or modified; no fetch task launched). -/
theorem store_failure_never_fatal :
    (∀ (st : WaiterState) (stores : Stores) (task_len : Nat)
        (certificate : Certificate) (e : Unit),
      last_committed_round stores certificate.header.author = .error e →
      handleMissingParent st stores task_len certificate = (st, false))
    ∧ (∀ (st : WaiterState) (stores : Stores)
        (latest_consensus_round : Nat) (gc_depth : Round) (e : Unit),
      all_committed_rounds stores st.committee = .error e →
      kick st stores latest_consensus_round gc_depth = (st, none)) := by
  constructor
  · intro st stores task_len certificate e he
    unfold handleMissingParent
    split
    · rfl
    · split
      · rfl
      · rw [he]
  · intro st stores latest_consensus_round gc_depth e he
    unfold kick
    rw [he]

/-- C6 witness: with failing stores, a missing-parent event and a kick both
leave the state untouched. -/
theorem store_failure_never_fatal_witness :
    handleMissingParent exampleState exampleFailingStores 1 exampleCert
        = (exampleState, false)
    ∧ kick exampleState exampleFailingStores 0 0 = (exampleState, none) :=
  ⟨store_failure_never_fatal.1 exampleState exampleFailingStores 1 exampleCert () rfl,
   store_failure_never_fatal.2 exampleState exampleFailingStores 0 0 () rfl⟩

/-- C4: kick computes `gc_round = latest_consensus_round − gc_depth`
(saturating: `Nat` subtraction), builds `committed_snapshot` with one entry
`max(last_committed_round(a), gc_round)` for every authority of the current
committee (a store `None` read as round 0; the consensus store when present,
else the certificate store — see `specLastCommitted`), and the spawned fetch
task's request carries exactly this snapshot as `exclusive_lower_bounds`
with `max_items = 1000`. -/
theorem kick_request_matches_spec
    (st st' : WaiterState) (stores : Stores)
    (latest_consensus_round : Nat) (gc_depth : Round)
    (req : FetchCertificatesRequest)
    (hk : kick st stores latest_consensus_round gc_depth = (st', some req)) :
    req.max_items = 1000 ∧
    specCommittedSnapshot stores st.committee latest_consensus_round gc_depth =
      .ok req.exclusive_lower_bounds := by
  cases hro : all_committed_rounds stores st.committee with
  | error e =>
    unfold kick at hk
    rw [hro] at hk
    injection hk with h1 h2
    exact Option.noConfusion h2
  | ok rounds =>
    rw [kick_ok_unfold st stores latest_consensus_round gc_depth rounds hro] at hk
    simp only [] at hk
    split at hk
    · injection hk with h1 h2
      exact Option.noConfusion h2
    · injection hk with h1 h2
      injection h2 with h2
      subst h2
      exact ⟨rfl, specSnapshot_go_of_rounds stores latest_consensus_round gc_depth
        st.committee.authorities rounds hro⟩

/-- C4 witness: a concrete launch whose request is the spec snapshot with
`max_items = 1000`. -/
theorem kick_request_matches_spec_witness :
    (MAX_CERTIFICATES_TO_FETCH : Nat) = 1000 ∧
    specCommittedSnapshot exampleStores exampleCommittee 0 0 =
      .ok [(0, 1), (1, 1)] :=
  kick_request_matches_spec exampleState
    { committee := exampleCommittee, targets := [(0, 5)] }
    exampleStores 0 0
    { exclusive_lower_bounds := [(0, 1), (1, 1)],
      max_items := MAX_CERTIFICATES_TO_FETCH }
    (by decide)

/-- C5: a response with more than `MAX_CERTIFICATES_TO_FETCH = 1000`
certificates fails with `TooManyFetchedCertificatesReturned` and nothing is
sent on the loopback channel; consequently every delivered
`CertificateLoopbackMessage` carries at most 1000 certificates. -/
theorem oversized_response_never_delivered :
    (∀ (response : FetchCertificatesResponse) (send_ok ack_ok : Bool),
      response.certificates.length > MAX_CERTIFICATES_TO_FETCH →
      process_certificates_helper response send_ok ack_ok =
        (.error (.TooManyFetchedCertificatesReturned
            response.certificates.length MAX_CERTIFICATES_TO_FETCH), none))
    ∧ (∀ (response : FetchCertificatesResponse) (send_ok ack_ok : Bool)
        (msg : CertificateLoopbackMessage),
      (process_certificates_helper response send_ok ack_ok).2 = some msg →
      msg.certificates.length ≤ MAX_CERTIFICATES_TO_FETCH) := by
  constructor
  · intro response send_ok ack_ok h
    simp [process_certificates_helper, h]
  · intro response send_ok ack_ok msg h
    unfold process_certificates_helper at h
    split at h
    · cases h
    · next hle =>
      split at h
      · cases h
      · split at h
        · simp only [] at h
          injection h with h
          subst h
          show response.certificates.length ≤ MAX_CERTIFICATES_TO_FETCH
          simp only [MAX_CERTIFICATES_TO_FETCH, gt_iff_lt, not_lt] at hle ⊢
          omega
        · simp only [] at h
          injection h with h
          subst h
          show response.certificates.length ≤ MAX_CERTIFICATES_TO_FETCH
          simp only [MAX_CERTIFICATES_TO_FETCH, gt_iff_lt, not_lt] at hle ⊢
          omega

/-- C5 witness: a 1001-certificate response is rejected with no delivery, and
a delivered empty message is within the bound. -/
theorem oversized_response_never_delivered_witness :
    process_certificates_helper
        { certificates := List.replicate 1001 (mkCert 0 0) } true true =
      (.error (.TooManyFetchedCertificatesReturned
          (List.replicate 1001 (mkCert 0 0)).length MAX_CERTIFICATES_TO_FETCH), none)
    ∧ (CertificateLoopbackMessage.mk []).certificates.length
        ≤ MAX_CERTIFICATES_TO_FETCH :=
  ⟨oversized_response_never_delivered.1
      { certificates := List.replicate 1001 (mkCert 0 0) } true true
      (by simp only [List.length_replicate, MAX_CERTIFICATES_TO_FETCH]; omega),
   oversized_response_never_delivered.2
      { certificates := [] } true true { certificates := [] } rfl⟩

/-- C7: `NewEpoch` replaces the committee and clears the targets;
`UpdateCommittee` replaces the committee and keeps the targets; `Shutdown`
exits the loop (the in-flight task is dropped, not awaited — `run` returns);
none of these arms invokes kick; and closure of the reconfiguration channel
is a deliberate panic. -/
theorem reconfigure_semantics :
    (∀ (st : WaiterState) (committee : Committee),
      handleReconfigure st (.ok (.NewEpoch committee)) =
        (.continued { committee := committee, targets := [] }, false))
    ∧ (∀ (st : WaiterState) (committee : Committee),
      handleReconfigure st (.ok (.UpdateCommittee committee)) =
        (.continued { committee := committee, targets := st.targets }, false))
    ∧ (∀ (st : WaiterState),
      handleReconfigure st (.ok .Shutdown) = (.exited, false))
    ∧ (∀ (st : WaiterState) (e : Unit),
      handleReconfigure st (.error e) = (.panicked, false)) :=
  ⟨fun _ _ => rfl, fun _ _ => rfl, fun _ => rfl, fun _ _ => rfl⟩

set_option maxRecDepth 4000 in
/-- C9: on the store of `test_fetch_certificates_handler` (A0 holds rounds
{0,1}, A1 {0,1,2}, A2 {0,1,2,3}, A3 {0,1,2,3,4}), a request with exclusive
lower bounds [(A0,1),(A1,1),(A2,3),(A3,3)] and `max_items = 5` returns
exactly two certificates: A1 at round 2 and A3 at round 4. -/
theorem fetch_handler_test_query :
    fetchCertificatesHandler testHandlerStore
      { exclusive_lower_bounds := [(0, 1), (1, 1), (2, 3), (3, 3)], max_items := 5 }
      = { certificates := [mkCert 1 2, mkCert 3 4] } := by
  decide

/-- C8: the probing loop returns at the first successful response from any
outstanding peer call (`probePass_first_success`: the pass stops exactly at
the first `Ok`); on a peer error it proceeds to the next peer immediately,
consuming only that completion event and no interval event; when the
interval elapses it issues the next peer's call concurrently without
cancelling older in-flight calls (the in-flight count grows by one); when
the peer list is exhausted it reshuffles and continues (the outer loop
recursion), terminating successfully exactly on traces that contain a
successful response — fuel exhaustion standing for task cancellation. -/
theorem probing_loop_semantics :
    (∀ (npeers inflight : Nat) (events : List ProbeEvent),
      probePass (npeers + 1) inflight (.response false :: events) =
        probePass npeers inflight events)
    ∧ (∀ (npeers inflight : Nat) (events : List ProbeEvent),
      probePass (npeers + 1) inflight (.timeout :: events) =
        probePass npeers (inflight + 1) events)
    ∧ (∀ (k npeers inflight : Nat) (events : List ProbeEvent),
      k < npeers →
      events.get? k = some (.response true) →
      (∀ j, j < k → events.get? j ≠ some (.response true)) →
      probePass npeers inflight events =
        (true, inflight + (events.take k).countP (fun e => e == ProbeEvent.timeout),
          events.drop (k + 1)))
    ∧ (∀ (fuel npeers : Nat) (events : List ProbeEvent),
      probeLoop fuel npeers events = some () →
      ∃ k, events.get? k = some (.response true))
    ∧ (∀ (npeers : Nat) (events : List ProbeEvent),
      1 ≤ npeers →
      (∃ k, events.get? k = some (.response true)) →
      probeLoop events.length npeers events = some ()) :=
  ⟨probePass_err_step, probePass_timeout_step, probePass_first_success,
   probeLoop_sound,
   fun npeers events hn hex =>
     probeLoop_liveness events.length npeers events hn (Nat.le_refl _) hex⟩

/-- C8 witness: on the trace error, interval, success with three peers the
pass returns at the third event with one other call still in flight; a
successful loop run implies a success in its trace; and a trace holding a
success is reached by the loop. -/
theorem probing_loop_semantics_witness :
    probePass 3 0 [ProbeEvent.response false, ProbeEvent.timeout, ProbeEvent.response true]
      = (true, 1, [])
    ∧ (∃ k, ([ProbeEvent.response false, ProbeEvent.response true].get? k)
        = some (ProbeEvent.response true))
    ∧ probeLoop 2 3 [ProbeEvent.response false, ProbeEvent.response true] = some () :=
  ⟨probing_loop_semantics.2.2.1 2 3 0
      [ProbeEvent.response false, ProbeEvent.timeout, ProbeEvent.response true]
      (by decide) (by decide) (by decide),
   probing_loop_semantics.2.2.2.1 2 3
      [ProbeEvent.response false, ProbeEvent.response true] (by decide),
   probing_loop_semantics.2.2.2.2 3
      [ProbeEvent.response false, ProbeEvent.response true] (by decide) ⟨1, rfl⟩⟩

end CertificateWaiter

